import Mathlib

/-! Verification of the Battery-Pack-Simulator serial framing layer.

The definitions below are a shallow embedding of
`pc_simulator/communication/protocol.py`,
`pc_simulator/communication/uart_bidirectional.py` and
`pc_simulator/communication/uart_xbb_sequential.py`.
Bytes are modelled as natural numbers (< 256 on real inputs) and byte
strings as `List Nat`; Python `struct` little-endian packing is spelled
out digit by digit; the stateful transports become explicit state-passing
functions. -/

set_option maxRecDepth 8000

namespace BPS

/-- Start-of-frame marker (`protocol.py`: `SOF = 0xA5`). -/
def SOF : Nat := 0xA5

/-- End-of-frame marker (`protocol.py`: `EOF = 0xAA`). -/
def EOF : Nat := 0xAA

/-- One shift-and-conditionally-xor step of the inner loop of
`crc16_ccitt` (`protocol.py`): polynomial `0x1021`, state masked to 16
bits each step. -/
def crcStep (crc : Nat) : Nat :=
  if (crc &&& 0x8000) ≠ 0 then ((crc <<< 1) ^^^ 0x1021) &&& 0xFFFF
  else (crc <<< 1) &&& 0xFFFF

/-- Processing of one data byte by `crc16_ccitt`: xor the byte into the
high half of the state, then run eight `crcStep` iterations. -/
def crcByte (crc b : Nat) : Nat := crcStep^[8] (crc ^^^ (b <<< 8))

/-- `crc16_ccitt(data, initial)` from `protocol.py`. -/
def crc16_ccitt (data : List Nat) (initial : Nat) : Nat :=
  data.foldl crcByte initial

/-- Little-endian bytes of a `uint16` (Python `struct` format `H`). -/
def u16le (n : Nat) : List Nat := [n % 256, n / 256 % 256]

/-- Little-endian bytes of a `uint32` (Python `struct` format `I`). -/
def u32le (n : Nat) : List Nat :=
  [n % 256, n / 256 % 256, n / 65536 % 256, n / 16777216 % 256]

/-- Little-endian bytes of an `int16` (Python `struct` format `h`),
two's complement. -/
def i16le (z : Int) : List Nat := u16le (z % 65536).toNat

/-- Little-endian bytes of an `int32` (Python `struct` format `i`),
two's complement. -/
def i32le (z : Int) : List Nat := u32le (z % 4294967296).toNat

/-- Read a little-endian `uint16` from the first two bytes. -/
def readU16 (b : List Nat) : Nat := b.getD 0 0 + 256 * b.getD 1 0

/-- Read a little-endian `uint32` from the first four bytes. -/
def readU32 (b : List Nat) : Nat :=
  b.getD 0 0 + 256 * b.getD 1 0 + 65536 * b.getD 2 0 + 16777216 * b.getD 3 0

/-- Read a little-endian two's-complement `int16`. -/
def readI16 (b : List Nat) : Int :=
  if readU16 b < 32768 then (readU16 b : Int) else (readU16 b : Int) - 65536

/-- Read a little-endian two's-complement `int32`. -/
def readI32 (b : List Nat) : Int :=
  if readU32 b < 2147483648 then (readU32 b : Int)
  else (readU32 b : Int) - 4294967296

/-- Sequential `uint16` packing of a whole list (`struct.pack` with a
repeated `H` format, as used for `vcell_mv`). -/
def packU16s : List Nat → List Nat
  | [] => []
  | v :: vs => u16le v ++ packU16s vs

/-- Sequential `int16` packing of a whole list (repeated `h` format, as
used for `tcell_cc`). -/
def packI16s : List Int → List Nat
  | [] => []
  | t :: ts => i16le t ++ packI16s ts

/-- Sequential `uint16` unpacking of `n` values (repeated `H` format). -/
def readU16s : Nat → List Nat → List Nat
  | 0, _ => []
  | n + 1, b => readU16 b :: readU16s n (b.drop 2)

/-- Sequential `int16` unpacking of `n` values (repeated `h` format). -/
def readI16s : Nat → List Nat → List Int
  | 0, _ => []
  | n + 1, b => readI16 b :: readI16s n (b.drop 2)

/-- The measurement payload record handled by `AFEMeasFrame`
(`protocol.py`): timestamp, 16 cell voltages, 16 cell temperatures,
pack current, pack voltage and status flags. -/
structure AFEMeasRecord where
  timestamp_ms : Nat
  vcell_mv : List Nat
  tcell_cc : List Int
  pack_current_ma : Int
  pack_voltage_mv : Nat
  status_flags : Nat
deriving DecidableEq, Repr

/-- All fields of the record are inside their declared bit-width ranges
and both arrays have exactly 16 elements (the validity assumptions under
which `struct.pack` in `AFEMeasFrame.encode` succeeds unchanged). -/
def ValidRecord (r : AFEMeasRecord) : Prop :=
  r.timestamp_ms < 4294967296 ∧
  r.vcell_mv.length = 16 ∧ (∀ v ∈ r.vcell_mv, v < 65536) ∧
  r.tcell_cc.length = 16 ∧ (∀ t ∈ r.tcell_cc, -32768 ≤ t ∧ t ≤ 32767) ∧
  -2147483648 ≤ r.pack_current_ma ∧ r.pack_current_ma ≤ 2147483647 ∧
  r.pack_voltage_mv < 4294967296 ∧ r.status_flags < 4294967296

instance (r : AFEMeasRecord) : Decidable (ValidRecord r) := by
  unfold ValidRecord; infer_instance

/-- The 80-byte `AFEMeasFrame` payload in the byte order of
`PAYLOAD_FORMAT = '<I' + 'H'*16 + 'h'*16 + 'iII'`. -/
def encodePayload (r : AFEMeasRecord) : List Nat :=
  u32le r.timestamp_ms ++ packU16s r.vcell_mv ++ packI16s r.tcell_cc ++
  i32le r.pack_current_ma ++ u32le r.pack_voltage_mv ++ u32le r.status_flags

namespace AFEMeasFrame

/-- `AFEMeasFrame.encode` (`protocol.py`): frame layout
`SOF | msg_id | len | seq | payload | CRC16 | EOF`, with `msg_id = 0x01`,
the sequence wrapped with `& 0xFFFF` and the CRC computed over
`msg_id | len | seq | payload`. -/
def encode (r : AFEMeasRecord) (sequence : Nat) : List Nat :=
  let payload := encodePayload r
  let seq := sequence &&& 0xFFFF
  let crc := crc16_ccitt ([1, payload.length] ++ u16le seq ++ payload) 0xFFFF
  [SOF, 1, payload.length] ++ u16le seq ++ payload ++ u16le crc ++ [EOF]

/-- Possible outcomes of `AFEMeasFrame.decode`: a decoded record with
its sequence number, Python `None`, or an uncaught exception escaping
the function (the payload `struct.unpack` call in `decode` is not
guarded by any `try`). -/
inductive DecodeResult where
  | ok (r : AFEMeasRecord) (sequence : Nat)
  | invalid
  | error
deriving DecidableEq, Repr

/-- Field-by-field reading of a payload buffer according to
`PAYLOAD_FORMAT`, used by `decode` after all frame checks pass. -/
def parsePayload (p : List Nat) : AFEMeasRecord :=
  { timestamp_ms := readU32 p
    vcell_mv := readU16s 16 (p.drop 4)
    tcell_cc := readI16s 16 (p.drop 36)
    pack_current_ma := readI32 (p.drop 68)
    pack_voltage_mv := readU32 (p.drop 72)
    status_flags := readU32 (p.drop 76) }

/-- `AFEMeasFrame.decode` (`protocol.py`): minimum-size, marker,
message-id, declared-length and CRC checks each return `None`
(`invalid`); after they all pass the 80-byte payload `struct.unpack`
runs unguarded, so a consistent declared length other than 80 raises
(`error`). -/
def decode (frame : List Nat) : DecodeResult :=
  if frame.length < 7 then .invalid
  else if frame.getD 0 0 ≠ SOF ∨ frame.getLast? ≠ some EOF then .invalid
  else
    let length := frame.getD 2 0
    if frame.getD 1 0 ≠ 1 then .invalid
    else if frame.length ≠ 8 + length then .invalid
    else if crc16_ccitt ((frame.drop 1).take (4 + length)) 0xFFFF ≠
        readU16 (frame.drop (5 + length)) then .invalid
    else if length = 80 then
      .ok (parsePayload ((frame.drop 5).take length)) (readU16 (frame.drop 3))
    else .error

end AFEMeasFrame

/-- The status record decoded by `BMSAppFrame.decode` (`protocol.py`),
including the three convenience fields derived from the raw ones. -/
structure BMSAppRecord where
  timestamp_ms : Nat
  mosfet_status : Nat
  protection_flags : Nat
  bms_current_ma : Int
  bms_voltage_mv : Nat
  balancing_status : List Nat
  fault_codes : List Nat
  bms_state_flags : Nat
  sequence : Nat
  mosfet_charge : Bool
  mosfet_discharge : Bool
  protection_active : Bool
deriving DecidableEq, Repr

namespace BMSAppFrame

/-- Field-by-field reading of a `BMSAppFrame` payload according to
`PAYLOAD_FORMAT = '<I H H i I ' + 'H'*16 + 'B'*8 + 'I'` (60 bytes). -/
def parsePayload (p : List Nat) (seq : Nat) : BMSAppRecord :=
  let mosfet := readU16 (p.drop 4)
  let prot := readU16 (p.drop 6)
  { timestamp_ms := readU32 p
    mosfet_status := mosfet
    protection_flags := prot
    bms_current_ma := readI32 (p.drop 8)
    bms_voltage_mv := readU32 (p.drop 12)
    balancing_status := readU16s 16 (p.drop 16)
    fault_codes := (p.drop 48).take 8
    bms_state_flags := readU32 (p.drop 56)
    sequence := seq
    mosfet_charge := mosfet &&& 0x0001 ≠ 0
    mosfet_discharge := mosfet &&& 0x0002 ≠ 0
    protection_active := prot ≠ 0 }

/-- `BMSAppFrame.decode` (`protocol.py`): the same frame checks as
`AFEMeasFrame.decode` with `msg_id = 0x02`, but here the payload
`struct.unpack` sits inside `try/except`, so a declared length other
than the 60-byte format size yields `None` instead of an exception. -/
def decode (frame : List Nat) : Option BMSAppRecord :=
  if frame.length < 7 then none
  else if frame.getD 0 0 ≠ SOF ∨ frame.getLast? ≠ some EOF then none
  else
    let length := frame.getD 2 0
    if frame.getD 1 0 ≠ 2 then none
    else if frame.length ≠ 8 + length then none
    else if crc16_ccitt ((frame.drop 1).take (4 + length)) 0xFFFF ≠
        readU16 (frame.drop (5 + length)) then none
    else if length = 60 then
      some (parsePayload ((frame.drop 5).take length) (readU16 (frame.drop 3)))
    else none

end BMSAppFrame

/-- The linear scan for the first `SOF` byte at the top of
`BidirectionalUART._extract_frame` (`uart_bidirectional.py`). -/
def findSOF : List Nat → Option Nat
  | [] => none
  | x :: xs => if x = SOF then some 0 else (findSOF xs).map (· + 1)

/-- `struct.unpack('<BBH', ...)` on the four header bytes inside
`_extract_frame`: succeeds exactly on a four-byte buffer, giving
`(msg_id, length, seq)`. -/
def unpackBBH (l : List Nat) : Option (Nat × Nat × Nat) :=
  match l with
  | [a, b, c, d] => some (a, b, c + 256 * d)
  | _ => none

/-- `BidirectionalUART._extract_frame` (`uart_bidirectional.py`) as a
pure function from the receive buffer to the optional extracted frame
and the new receive buffer: clear the buffer when no `SOF` is present,
discard bytes before the first `SOF`, wait for at least 7 bytes, parse
the header, wait for the declared total size, drop one byte to
resynchronize when the end marker is wrong, otherwise remove and return
the frame. -/
def extractFrame (buf : List Nat) : Option (List Nat) × List Nat :=
  match findSOF buf with
  | none => (none, [])
  | some i =>
    let b := buf.drop i
    if b.length < 7 then (none, b)
    else
      match unpackBBH ((b.drop 1).take 4) with
      | none => (none, b.drop 1)
      | some (_, length, _) =>
        let expected := 1 + 4 + length + 2 + 1
        if b.length < expected then (none, b)
        else if b.getD (expected - 1) 0 ≠ EOF then (none, b.drop 1)
        else (some (b.take expected), b.drop expected)

/-- Repeated `_extract_frame` calls (as in the `_rx_worker` parse loop):
collect extracted frames until a call yields no frame, returning the
frames in order and the final receive buffer. The fuel argument bounds
the number of calls. -/
def extractUntilNone : Nat → List Nat → List (List Nat) × List Nat
  | 0, buf => ([], buf)
  | fuel + 1, buf =>
    match extractFrame buf with
    | (none, buf2) => ([], buf2)
    | (some f, buf2) =>
      let p := extractUntilNone fuel buf2
      (f :: p.1, p.2)

/-- `validate_afe_meas_data` (`protocol.py`) on the modelled record:
both arrays have 16 elements with entries in range, and current,
voltage and flags are inside their declared ranges.  (Cell voltages are
naturals here, so the `>= 0` half of the source check is implicit.) -/
def validate_afe_meas_data (r : AFEMeasRecord) : Bool :=
  r.vcell_mv.length = 16 && r.vcell_mv.all (fun v => v ≤ 65535) &&
  r.tcell_cc.length = 16 &&
  r.tcell_cc.all (fun t => -32768 ≤ t && t ≤ 32767) &&
  (-2147483648 ≤ r.pack_current_ma && r.pack_current_ma ≤ 2147483647) &&
  r.pack_voltage_mv ≤ 4294967295 && r.status_flags ≤ 4294967295

/-- The only field `validate_afe_meas_data` leaves unchecked that
`struct.pack` in `AFEMeasFrame.encode` can still reject: the `uint32`
timestamp.  `encode` raises, and `send_frame` catches and counts an
error, exactly when this is false. -/
def encodeOk (r : AFEMeasRecord) : Bool := r.timestamp_ms ≤ 4294967295

/-- The part of the `BidirectionalUART` state touched by `send_frame`:
the TX sequence counter, the TX error counter and the bounded
(`maxsize=100`) outbound queue, modelled front-to-back as a list. -/
structure TxState where
  txSequence : Nat
  txErrors : Nat
  txQueue : List (List Nat)
deriving DecidableEq, Repr

/-- `BidirectionalUART.send_frame` (`uart_bidirectional.py`): validate
(errors counted, no sequence change), encode with the current sequence
and increment the sequence `& 0xFFFF`, then `put_nowait` on the bounded
queue — a full queue counts an error and returns `False` with the
already-incremented sequence kept. -/
def send_frame (st : TxState) (r : AFEMeasRecord) : Bool × TxState :=
  if ¬ validate_afe_meas_data r then
    (false, { st with txErrors := st.txErrors + 1 })
  else if ¬ encodeOk r then
    (false, { st with txErrors := st.txErrors + 1 })
  else
    let frame := AFEMeasFrame.encode r st.txSequence
    let st2 := { st with txSequence := (st.txSequence + 1) &&& 0xFFFF }
    if st2.txQueue.length < 100 then
      (true, { st2 with txQueue := st2.txQueue ++ [frame] })
    else
      (false, { st2 with txErrors := st2.txErrors + 1 })

/-- The inbound-queue insertion in `BidirectionalUART._rx_worker`:
`put_nowait` on the bounded (`maxsize=1000`) queue, and on `queue.Full`
drop the oldest element (`get_nowait`) before inserting. -/
def rxEnqueue (q : List BMSAppRecord) (x : BMSAppRecord) : List BMSAppRecord :=
  if q.length < 1000 then q ++ [x] else q.drop 1 ++ [x]

/-- One `send_frame` call on a state whose outbound queue has been
drained by the TX worker thread — the situation in a long run of
accepted frames. -/
def runStep (r : AFEMeasRecord) (st : TxState) : TxState :=
  (send_frame { st with txQueue := [] } r).2

/-- The transport state before the `k`-th frame of a run of accepted
`send_frame` calls, starting from the freshly constructed state
(`_tx_sequence = 0`). -/
def runState (r : AFEMeasRecord) : Nat → TxState
  | 0 => ⟨0, 0, []⟩
  | k + 1 => runStep r (runState r k)

/-- Outcome of one attempt of the retry loop in
`SequentialXBBUART.send_and_receive` (`uart_xbb_sequential.py`):
`_send_frame` returned `False`; `_receive_frame` timed out;
`XBBFrameDecoder.decode` rejected the response; or a valid response
arrived. -/
inductive AttemptOutcome where
  | sendFail
  | timeout
  | badFrame
  | good
deriving DecidableEq, Repr

/-- How `send_and_receive` ends: `return True`, `return False`, or
`sys.exit(1)` killing the process. -/
inductive SRResult where
  | success
  | returnFalse
  | exit1
deriving DecidableEq, Repr

/-- The retry loop of `SequentialXBBUART.send_and_receive`, driven by
the listed per-attempt outcomes (one list element per attempt, so the
list length is `max_retries`).  Returns how the call ends and how many
`_send_frame` calls were made: a valid response returns success
immediately; a send failure on the *last* attempt does `return False`;
any other failure continues, and falling off the loop end reaches
`sys.exit(1)`. -/
def retryLoop : List AttemptOutcome → SRResult × Nat
  | [] => (.exit1, 0)
  | o :: rest =>
    match o, rest with
    | .good, _ => (.success, 1)
    | .sendFail, [] => (.returnFalse, 1)
    | _, _ =>
      let p := retryLoop rest
      (p.1, p.2 + 1)

/-- The TX counter handling in `SequentialXBBUART.send_and_receive`:
the current counter is used as the request identifier, then the stored
counter becomes `(counter + 1) % (2**31)`. -/
def txCounterStep (c : Nat) : Nat × Nat := (c, (c + 1) % 2147483648)

/-- Flip bit `b` of byte `i` of a byte string. -/
def flipBit (l : List Nat) (i b : Nat) : List Nat :=
  l.set i ((l.getD i 0) ^^^ 2 ^ b)

/-- The bytes covered by the CRC in `AFEMeasFrame.encode`:
`msg_id | len | seq | payload`. -/
def crcData (r : AFEMeasRecord) (s : Nat) : List Nat :=
  [1, (encodePayload r).length] ++ u16le (s &&& 0xFFFF) ++ encodePayload r

/-- The example measurement record from the spec: timestamp 1000, all
16 voltages 3300 mV, all 16 temperatures 2500 centi-°C, current
-5000 mA, voltage 52800 mV, no status flags. -/
def exampleRecord : AFEMeasRecord :=
  ⟨1000, List.replicate 16 3300, List.replicate 16 2500, -5000, 52800, 0⟩

/-- An 8-byte input for `AFEMeasFrame.decode` whose markers, message id,
declared length (0) and CRC (`crc16_ccitt([1,0,0,0], 0xFFFF) = 62068 =
0xF274`, stored little-endian) are all consistent, so `decode` reaches
the unguarded `struct.unpack` with a 0-byte payload. -/
def shortLengthFrame : List Nat := [165, 1, 0, 0, 0, 116, 242, 170]

/-- A transport state whose outbound queue is full (100 frames). -/
def fullTxState : TxState := ⟨0, 0, List.replicate 100 []⟩

/-- An arbitrary decoded status record, used to exercise the inbound
queue. -/
def someBmsRecord : BMSAppRecord :=
  ⟨0, 3, 0, 0, 48000, List.replicate 16 0, List.replicate 8 0, 0, 0,
   true, true, false⟩

theorem u16le_length (n : Nat) : (u16le n).length = 2 := rfl

theorem u32le_length (n : Nat) : (u32le n).length = 4 := rfl

theorem i16le_length (z : Int) : (i16le z).length = 2 := rfl

theorem i32le_length (z : Int) : (i32le z).length = 4 := rfl

theorem packU16s_length (vs : List Nat) :
    (packU16s vs).length = 2 * vs.length := by
  induction vs with
  | nil => rfl
  | cons v vs ih => simp [packU16s, u16le, ih]; omega

theorem packI16s_length (ts : List Int) :
    (packI16s ts).length = 2 * ts.length := by
  induction ts with
  | nil => rfl
  | cons t ts ih => simp [packI16s, i16le, u16le, ih]; omega

theorem readU16_u16le (n : Nat) (rest : List Nat) (h : n < 65536) :
    readU16 (u16le n ++ rest) = n := by
  simp [readU16, u16le]; omega

theorem readU32_u32le (n : Nat) (rest : List Nat) (h : n < 4294967296) :
    readU32 (u32le n ++ rest) = n := by
  simp [readU32, u32le]; omega

theorem readI16_i16le (z : Int) (rest : List Nat)
    (h1 : -32768 ≤ z) (h2 : z ≤ 32767) :
    readI16 (i16le z ++ rest) = z := by
  have hlt : (z % 65536).toNat < 65536 := by omega
  unfold i16le readI16
  rw [readU16_u16le _ _ hlt]
  split <;> omega

theorem readI32_i32le (z : Int) (rest : List Nat)
    (h1 : -2147483648 ≤ z) (h2 : z ≤ 2147483647) :
    readI32 (i32le z ++ rest) = z := by
  have hlt : (z % 4294967296).toNat < 4294967296 := by omega
  unfold i32le readI32
  rw [readU32_u32le _ _ hlt]
  split <;> omega

theorem readU16s_packU16s (vs : List Nat) (rest : List Nat)
    (h : ∀ v ∈ vs, v < 65536) :
    readU16s vs.length (packU16s vs ++ rest) = vs := by
  induction vs generalizing rest with
  | nil => rfl
  | cons v vs ih =>
    simp only [packU16s, List.length_cons, readU16s, List.append_assoc]
    refine congrArg₂ _ ?_ ?_
    · exact readU16_u16le v _ (h v (by simp))
    · have hd : (u16le v ++ (packU16s vs ++ rest)).drop 2 = packU16s vs ++ rest := by
        simp [u16le]
      rw [hd]
      exact ih rest (fun x hx => h x (by simp [hx]))

theorem readI16s_packI16s (ts : List Int) (rest : List Nat)
    (h : ∀ t ∈ ts, -32768 ≤ t ∧ t ≤ 32767) :
    readI16s ts.length (packI16s ts ++ rest) = ts := by
  induction ts generalizing rest with
  | nil => rfl
  | cons t ts ih =>
    simp only [packI16s, List.length_cons, readI16s, List.append_assoc]
    refine congrArg₂ _ ?_ ?_
    · exact readI16_i16le t _ (h t (by simp)).1 (h t (by simp)).2
    · have hd : (i16le t ++ (packI16s ts ++ rest)).drop 2 = packI16s ts ++ rest := by
        simp [i16le, u16le]
      rw [hd]
      exact ih rest (fun x hx => h x (by simp [hx]))

theorem crcStep_lt (c : Nat) : crcStep c < 65536 := by
  unfold crcStep
  split <;> exact Nat.lt_of_le_of_lt Nat.and_le_right (by norm_num)

theorem crcByte_lt (c b : Nat) : crcByte c b < 65536 := by
  unfold crcByte
  have h8 : (8 : Nat) = 7 + 1 := rfl
  rw [h8, Function.iterate_succ_apply']
  exact crcStep_lt _

theorem crc16_lt (l : List Nat) (c : Nat) (h : c < 65536) :
    crc16_ccitt l c < 65536 := by
  induction l generalizing c with
  | nil => simpa [crc16_ccitt]
  | cons x xs ih =>
    simp only [crc16_ccitt, List.foldl_cons] at *
    exact ih _ (crcByte_lt _ _)

theorem encodePayload_length (r : AFEMeasRecord)
    (hv : r.vcell_mv.length = 16) (ht : r.tcell_cc.length = 16) :
    (encodePayload r).length = 80 := by
  simp [encodePayload, packU16s_length, packI16s_length, u32le, i32le,
    i16le, u16le, hv, ht]

theorem crcData_length (r : AFEMeasRecord) (s : Nat)
    (hp : (encodePayload r).length = 80) : (crcData r s).length = 84 := by
  simp [crcData, u16le, hp]

/-- `AFEMeasFrame.encode` written in head-normal frame shape:
start marker, CRC-covered bytes, stored CRC word, end marker. -/
theorem encode_eq (r : AFEMeasRecord) (s : Nat) :
    AFEMeasFrame.encode r s =
      165 :: (crcData r s ++
        (u16le (crc16_ccitt (crcData r s) 0xFFFF) ++ [170])) := by
  simp [AFEMeasFrame.encode, crcData, SOF, EOF, List.append_assoc]

/-- Evaluation of `AFEMeasFrame.decode` on any input of the frame shape
`SOF | 84 covered bytes | 16-bit word | EOF`: the result depends only on
the message id and length bytes, and on whether the stored word matches
the recomputed CRC. -/
theorem decode_shape (D : List Nat) (w : Nat) (hD : D.length = 84)
    (hw : w < 65536) :
    AFEMeasFrame.decode (165 :: (D ++ (u16le w ++ [170]))) =
      if D.getD 0 0 ≠ 1 then .invalid
      else if D.getD 1 0 ≠ 80 then .invalid
      else if crc16_ccitt D 0xFFFF ≠ w then .invalid
      else .ok (AFEMeasFrame.parsePayload (D.drop 4)) (readU16 (D.drop 2)) := by
  have hstep : ∀ (a : Nat) (l : List Nat) (n : Nat),
      (a :: l).getD (n + 1) 0 = l.getD n 0 := fun a l n => List.getD_cons_succ
  have hdstep : ∀ (a : Nat) (l : List Nat) (n : Nat),
      (a :: l).drop (n + 1) = l.drop n := fun a l n => rfl
  set F := 165 :: (D ++ (u16le w ++ [170])) with hF
  have hlen : F.length = 88 := by simp [hF, u16le, hD]
  have h0 : F.getD 0 0 = 165 := List.getD_cons_zero
  have hlast : F.getLast? = some 170 := by
    rw [hF, ← List.cons_append, ← List.append_assoc, List.getLast?_concat]
  have h1 : F.getD 1 0 = D.getD 0 0 := by
    calc F.getD 1 0 = (D ++ (u16le w ++ [170])).getD 0 0 := hstep 165 _ 0
      _ = D.getD 0 0 := List.getD_append _ _ _ _ (by omega)
  have h2 : F.getD 2 0 = D.getD 1 0 := by
    calc F.getD 2 0 = (D ++ (u16le w ++ [170])).getD 1 0 := hstep 165 _ 1
      _ = D.getD 1 0 := List.getD_append _ _ _ _ (by omega)
  have hdrop1 : F.drop 1 = D ++ (u16le w ++ [170]) := hdstep 165 _ 0
  have htake84 : (F.drop 1).take 84 = D := by
    rw [hdrop1]; exact List.take_left' hD
  have hrecv : readU16 (F.drop 85) = w := by
    have hd : F.drop 85 = u16le w ++ [170] := by
      calc F.drop 85 = (D ++ (u16le w ++ [170])).drop 84 := hdstep 165 _ 84
        _ = u16le w ++ [170] := List.drop_left' hD
    rw [hd]; exact readU16_u16le _ _ hw
  have hdrop5 : F.drop 5 = D.drop 4 ++ (u16le w ++ [170]) := by
    calc F.drop 5 = (D ++ (u16le w ++ [170])).drop 4 := hdstep 165 _ 4
      _ = D.drop 4 ++ (u16le w ++ [170]) := by
          rw [List.drop_append_eq_append_drop,
            show 4 - D.length = 0 from by omega, List.drop_zero]
  have htake80 : (F.drop 5).take 80 = D.drop 4 := by
    rw [hdrop5]
    exact List.take_left' (by rw [List.length_drop, hD])
  have hseq : readU16 (F.drop 3) = readU16 (D.drop 2) := by
    have hd : F.drop 3 = D.drop 2 ++ (u16le w ++ [170]) := by
      calc F.drop 3 = (D ++ (u16le w ++ [170])).drop 2 := hdstep 165 _ 2
        _ = D.drop 2 ++ (u16le w ++ [170]) := by
            rw [List.drop_append_eq_append_drop,
              show 2 - D.length = 0 from by omega, List.drop_zero]
    have hl2 : (D.drop 2).length = 82 := by rw [List.length_drop, hD]
    rw [hd]
    unfold readU16
    rw [List.getD_append _ _ _ _ (by omega), List.getD_append _ _ _ _ (by omega)]
  simp only [AFEMeasFrame.decode]
  rw [hlen, h0, hlast, h1, h2]
  rw [if_neg (show ¬(88 < 7) from by omega)]
  rw [if_neg (show ¬(165 ≠ SOF ∨ some 170 ≠ some EOF) from by simp [SOF, EOF])]
  by_cases hm : D.getD 0 0 = 1
  · rw [if_neg (not_not_intro hm),
      if_neg (not_not_intro hm)]
    by_cases hl : D.getD 1 0 = 80
    · rw [hl]
      rw [if_neg (show ¬((88 : Nat) ≠ 8 + 80) from by omega)]
      rw [show (4 + 80 : Nat) = 84 from rfl, show (5 + 80 : Nat) = 85 from rfl]
      rw [htake84, hrecv]
      rw [if_neg (show ¬((80 : Nat) ≠ 80) from by omega)]
      by_cases hc : crc16_ccitt D 65535 = w
      · rw [if_neg (not_not_intro hc),
          if_neg (not_not_intro hc)]
        rw [if_pos (show (80 : Nat) = 80 from rfl)]
        rw [htake80, hseq]
      · rw [if_pos (show crc16_ccitt D 65535 ≠ w from hc),
          if_pos (show crc16_ccitt D 65535 ≠ w from hc)]
    · rw [if_pos (show (88 : Nat) ≠ 8 + D.getD 1 0 from by omega)]
      rw [if_pos (show D.getD 1 0 ≠ 80 from hl)]
  · rw [if_pos (show D.getD 0 0 ≠ 1 from hm),
      if_pos (show D.getD 0 0 ≠ 1 from hm)]

/-- Parsing an encoded payload recovers every field of a record whose
fields are in their declared ranges. -/
theorem parsePayload_encodePayload (r : AFEMeasRecord) (h : ValidRecord r) :
    AFEMeasFrame.parsePayload (encodePayload r) = r := by
  obtain ⟨ts, vs, tc, cur, volt, flags⟩ := r
  obtain ⟨hts, hv16, hvlt, ht16, htr, hcur1, hcur2, hvolt, hfl⟩ := h
  have hP : encodePayload ⟨ts, vs, tc, cur, volt, flags⟩ =
      u32le ts ++ (packU16s vs ++ (packI16s tc ++
        (i32le cur ++ (u32le volt ++ u32le flags)))) := by
    simp [encodePayload, List.append_assoc]
  have d4 : (encodePayload ⟨ts, vs, tc, cur, volt, flags⟩).drop 4 =
      packU16s vs ++ (packI16s tc ++ (i32le cur ++ (u32le volt ++ u32le flags))) := by
    rw [hP]; exact List.drop_left' (u32le_length ts)
  have d36 : (encodePayload ⟨ts, vs, tc, cur, volt, flags⟩).drop 36 =
      packI16s tc ++ (i32le cur ++ (u32le volt ++ u32le flags)) := by
    rw [show (36 : Nat) = 4 + 32 from rfl, ← List.drop_drop, d4]
    exact List.drop_left' (by rw [packU16s_length, hv16])
  have d68 : (encodePayload ⟨ts, vs, tc, cur, volt, flags⟩).drop 68 =
      i32le cur ++ (u32le volt ++ u32le flags) := by
    rw [show (68 : Nat) = 36 + 32 from rfl, ← List.drop_drop, d36]
    exact List.drop_left' (by rw [packI16s_length, ht16])
  have d72 : (encodePayload ⟨ts, vs, tc, cur, volt, flags⟩).drop 72 =
      u32le volt ++ u32le flags := by
    rw [show (72 : Nat) = 68 + 4 from rfl, ← List.drop_drop, d68]
    exact List.drop_left' (i32le_length cur)
  have d76 : (encodePayload ⟨ts, vs, tc, cur, volt, flags⟩).drop 76 =
      u32le flags := by
    rw [show (76 : Nat) = 72 + 4 from rfl, ← List.drop_drop, d72]
    exact List.drop_left' (u32le_length volt)
  unfold AFEMeasFrame.parsePayload
  simp only [AFEMeasRecord.mk.injEq]
  refine ⟨?_, ?_, ?_, ?_, ?_, ?_⟩
  · rw [hP]; exact readU32_u32le ts _ hts
  · rw [d4, ← hv16]; exact readU16s_packU16s vs _ hvlt
  · rw [d36, ← ht16]; exact readI16s_packI16s tc _ htr
  · rw [d68]; exact readI32_i32le cur _ hcur1 hcur2
  · rw [d72]; exact readU32_u32le volt _ hvolt
  · rw [d76, ← List.append_nil (u32le flags)]; exact readU32_u32le flags _ hfl

theorem crcData_getD0 (r : AFEMeasRecord) (s : Nat) :
    (crcData r s).getD 0 0 = 1 := rfl

theorem crcData_getD1 (r : AFEMeasRecord) (s : Nat) :
    (crcData r s).getD 1 0 = (encodePayload r).length := rfl

theorem crcData_drop2 (r : AFEMeasRecord) (s : Nat) :
    (crcData r s).drop 2 = u16le (s &&& 65535) ++ encodePayload r := rfl

theorem crcData_drop4 (r : AFEMeasRecord) (s : Nat) :
    (crcData r s).drop 4 = encodePayload r := by
  rw [show (4 : Nat) = 2 + 2 from rfl, ← List.drop_drop, crcData_drop2]
  exact List.drop_left' (u16le_length _)

theorem and_65535_eq_mod (n : Nat) : n &&& 65535 = n % 65536 := by
  have h := Nat.and_pow_two_sub_one_eq_mod n 16
  norm_num at h
  exact h

/-- C1: round-trip of the measurement codec.  For every in-range payload
record and every sequence number, decoding the encoded frame returns the
record field-for-field together with the sequence reduced mod 65536, and
the encoded frame is 88 bytes long. -/
theorem c1_round_trip (r : AFEMeasRecord) (s : Nat) (h : ValidRecord r) :
    AFEMeasFrame.decode (AFEMeasFrame.encode r s) =
      .ok r (s % 65536) ∧ (AFEMeasFrame.encode r s).length = 88 := by
  have hplen : (encodePayload r).length = 80 :=
    encodePayload_length r h.2.1 h.2.2.2.1
  have hD : (crcData r s).length = 84 := crcData_length r s hplen
  have hcrc : crc16_ccitt (crcData r s) 0xFFFF < 65536 :=
    crc16_lt _ _ (by norm_num)
  constructor
  · rw [encode_eq, decode_shape _ _ hD hcrc]
    rw [if_neg (show ¬((crcData r s).getD 0 0 ≠ 1) from by
      rw [crcData_getD0]; omega)]
    rw [if_neg (show ¬((crcData r s).getD 1 0 ≠ 80) from by
      rw [crcData_getD1, hplen]; omega)]
    rw [if_neg (show ¬(crc16_ccitt (crcData r s) 0xFFFF ≠
        crc16_ccitt (crcData r s) 0xFFFF) from by omega)]
    rw [crcData_drop4, parsePayload_encodePayload r h, crcData_drop2]
    rw [readU16_u16le _ _ (by rw [and_65535_eq_mod]; omega), and_65535_eq_mod]
  · rw [encode_eq]
    simp [u16le, hD]

set_option maxRecDepth 100000 in
set_option maxRecDepth 8000 in
theorem exampleRecord_valid : ValidRecord exampleRecord := by decide

/-- Witness for C1: the spec's end-to-end example (timestamp 1000, all
voltages 3300, all temperatures 2500, current -5000, voltage 52800,
flags 0, sequence 7) is valid, encodes to an 88-byte frame, and decodes
back to exactly those values with sequence 7. -/
theorem c1_round_trip_witness :
    ValidRecord exampleRecord ∧
      (AFEMeasFrame.decode (AFEMeasFrame.encode exampleRecord 7) =
        .ok exampleRecord (7 % 65536) ∧
       (AFEMeasFrame.encode exampleRecord 7).length = 88) :=
  ⟨exampleRecord_valid, c1_round_trip exampleRecord 7 exampleRecord_valid⟩

/-- C2 (code bug): `AFEMeasFrame.decode` is not exception-free.  On the
8-byte frame with message id 1, declared length 0, and a correct CRC,
every guard passes and the unguarded payload `struct.unpack` raises
(`DecodeResult.error`), contradicting the documented
"returns None, never raises" contract. -/
theorem c2_decode_raises_on_short_length_frame :
    AFEMeasFrame.decode shortLengthFrame = .error := by decide

/-- C9: every `_extract_frame` call leaves the receive buffer equal to a
contiguous suffix of its prior contents (bytes are only consumed from
the head, never reordered, modified or appended). -/
theorem c9_extract_frame_suffix (buf : List Nat) :
    ∃ k, (extractFrame buf).2 = buf.drop k := by
  unfold extractFrame
  cases h : findSOF buf with
  | none => exact ⟨buf.length, by simp [List.drop_length]⟩
  | some i =>
    dsimp only
    by_cases h7 : (buf.drop i).length < 7
    · refine ⟨i, ?_⟩
      rw [if_pos h7]
    · rw [if_neg h7]
      cases hu : unpackBBH (((buf.drop i).drop 1).take 4) with
      | none =>
        refine ⟨i + 1, ?_⟩
        dsimp only
        simp only [List.drop_drop]
      | some v =>
        obtain ⟨m, len, sq⟩ := v
        dsimp only
        by_cases hsz : (buf.drop i).length < 1 + 4 + len + 2 + 1
        · refine ⟨i, ?_⟩
          simp only [if_pos hsz]
        · by_cases he : (buf.drop i).getD (1 + 4 + len + 2 + 1 - 1) 0 ≠ EOF
          · refine ⟨i + 1, ?_⟩
            simp only [if_neg hsz, if_pos he, List.drop_drop]
          · refine ⟨i + (1 + 4 + len + 2 + 1), ?_⟩
            simp only [if_neg hsz, if_neg he, List.drop_drop]

/-- C10: whenever the buffer starting at the found `SOF` holds at least
the 7-byte minimum, the header `struct.unpack('<BBH', buffer[1:5])` in
`_extract_frame` succeeds — the drop-one-byte resynchronization guarded
by its exception handler is unreachable, so resynchronization can only
be triggered by the end-marker check. -/
theorem c10_header_unpack_total (b : List Nat) (h : ¬ b.length < 7) :
    (unpackBBH ((b.drop 1).take 4)).isSome = true := by
  rcases b with _ | ⟨x0, _ | ⟨x1, _ | ⟨x2, _ | ⟨x3, _ | ⟨x4, b5⟩⟩⟩⟩⟩
  · simp at h
  · simp at h
  · simp at h
  · simp at h
  · simp at h
  · rfl

/-- Witness for C10 at a concrete minimum-size buffer. -/
theorem c10_header_unpack_total_witness :
    (unpackBBH ((([165, 1, 0, 0, 0, 0, 170] : List Nat).drop 1).take 4)).isSome
      = true :=
  c10_header_unpack_total [165, 1, 0, 0, 0, 0, 170] (by decide)

theorem findSOF_append_cons (g t : List Nat) (hg : ∀ x ∈ g, x ≠ SOF) :
    findSOF (g ++ (165 :: t)) = some g.length := by
  induction g with
  | nil => simp [findSOF, SOF]
  | cons x g ih =>
    have hx : ¬ x = SOF := hg x (by simp)
    simp [List.cons_append, findSOF, if_neg hx,
      ih (fun y hy => hg y (by simp [hy]))]

/-- A structurally complete frame at the head of the buffer (after
SOF-free garbage) is extracted whole, leaving exactly the bytes after
it: its declared length byte `b` matches the actual size and the byte
at the expected end position is the end marker. -/
theorem extractFrame_frame_prefix (g rest : List Nat) (a b c d : Nat)
    (t : List Nat) (hg : ∀ x ∈ g, x ≠ SOF) (hlen : t.length = 3 + b)
    (hEOF : t.getD (2 + b) 0 = 170) :
    extractFrame (g ++ ((165 :: a :: b :: c :: d :: t) ++ rest)) =
      (some (165 :: a :: b :: c :: d :: t), rest) := by
  have hstep : ∀ (x : Nat) (l : List Nat) (n : Nat),
      (x :: l).getD (n + 1) 0 = l.getD n 0 := fun x l n => List.getD_cons_succ
  have hfind : findSOF (g ++ ((165 :: a :: b :: c :: d :: t) ++ rest)) =
      some g.length := by
    rw [List.cons_append]
    exact findSOF_append_cons g _ hg
  have hFlen : (165 :: a :: b :: c :: d :: t).length = t.length + 5 := by simp
  have hXlen : ((165 :: a :: b :: c :: d :: t) ++ rest).length =
      t.length + 5 + rest.length := by
    rw [List.length_append, hFlen]
  unfold extractFrame
  rw [hfind]
  dsimp only
  rw [List.drop_left' (rfl : g.length = g.length)]
  rw [if_neg (show ¬(((165 :: a :: b :: c :: d :: t) ++ rest).length < 7) from by
    rw [hXlen]; omega)]
  have hbbh : unpackBBH ((((165 :: a :: b :: c :: d :: t) ++ rest).drop 1).take 4)
      = some (a, b, c + 256 * d) := rfl
  rw [hbbh]
  dsimp only
  rw [if_neg (show ¬(((165 :: a :: b :: c :: d :: t) ++ rest).length <
      1 + 4 + b + 2 + 1) from by rw [hXlen]; omega)]
  have hgd : ((165 :: a :: b :: c :: d :: t) ++ rest).getD
      (1 + 4 + b + 2 + 1 - 1) 0 = 170 := by
    rw [show (1 + 4 + b + 2 + 1 - 1 : Nat) = ((((2 + b + 1) + 1) + 1) + 1) + 1
      from by omega]
    rw [List.getD_append _ _ _ _ (by rw [hFlen]; omega)]
    rw [hstep, hstep, hstep, hstep, hstep]
    exact hEOF
  rw [if_neg (show ¬(((165 :: a :: b :: c :: d :: t) ++ rest).getD
      (1 + 4 + b + 2 + 1 - 1) 0 ≠ EOF) from by rw [hgd]; exact fun h => h rfl)]
  rw [List.take_left' (show (165 :: a :: b :: c :: d :: t).length =
    1 + 4 + b + 2 + 1 from by rw [hFlen]; omega)]
  rw [List.drop_left' (show (165 :: a :: b :: c :: d :: t).length =
    1 + 4 + b + 2 + 1 from by rw [hFlen]; omega)]

/-- A valid encoded measurement frame sitting after SOF-free garbage is
extracted whole by `_extract_frame`, leaving the bytes after it. -/
theorem extract_encode_frame (g rest : List Nat) (r : AFEMeasRecord)
    (s : Nat) (h : ValidRecord r) (hg : ∀ x ∈ g, x ≠ SOF) :
    extractFrame (g ++ (AFEMeasFrame.encode r s ++ rest)) =
      (some (AFEMeasFrame.encode r s), rest) := by
  have hplen : (encodePayload r).length = 80 :=
    encodePayload_length r h.2.1 h.2.2.2.1
  have hEe : AFEMeasFrame.encode r s =
      165 :: 1 :: (encodePayload r).length :: ((s &&& 65535) % 256) ::
        ((s &&& 65535) / 256 % 256) ::
        (encodePayload r ++
          (u16le (crc16_ccitt (crcData r s) 0xFFFF) ++ [170])) := by
    rw [encode_eq]
    exact rfl
  have htlen : (encodePayload r ++
      (u16le (crc16_ccitt (crcData r s) 0xFFFF) ++ [170])).length =
      3 + (encodePayload r).length := by
    rw [List.length_append]
    simp [u16le]
    omega
  have hEOFt : (encodePayload r ++
      (u16le (crc16_ccitt (crcData r s) 0xFFFF) ++ [170])).getD
        (2 + (encodePayload r).length) 0 = 170 := by
    rw [List.getD_append_right _ _ _ _ (by omega)]
    rw [show 2 + (encodePayload r).length - (encodePayload r).length = 2
      from by omega]
    rfl
  rw [hEe]
  exact extractFrame_frame_prefix g rest 1 (encodePayload r).length _ _ _
    hg htlen hEOFt

theorem extractUntilNone_cons (fuel : Nat) (buf f buf2 : List Nat)
    (h : extractFrame buf = (some f, buf2)) :
    extractUntilNone (fuel + 1) buf =
      (f :: (extractUntilNone fuel buf2).1, (extractUntilNone fuel buf2).2) := by
  simp [extractUntilNone, h]

theorem extractUntilNone_stop (fuel : Nat) (buf buf2 : List Nat)
    (h : extractFrame buf = (none, buf2)) :
    extractUntilNone (fuel + 1) buf = ([], buf2) := by
  simp [extractUntilNone, h]

/-- C3 (amended): starting from garbage, a valid frame, more garbage and
a second valid frame, with the garbage runs containing no 0xA5 byte,
repeated `_extract_frame` calls (three or more) yield exactly the two
valid frames in order and leave the receive buffer empty. -/
theorem c3_resync_two_frames (r1 r2 : AFEMeasRecord) (s1 s2 : Nat)
    (g1 g2 : List Nat) (h1 : ValidRecord r1) (h2 : ValidRecord r2)
    (hg1 : ∀ x ∈ g1, x ≠ SOF) (hg2 : ∀ x ∈ g2, x ≠ SOF) (fuel : Nat) :
    extractUntilNone (fuel + 3)
        (g1 ++ (AFEMeasFrame.encode r1 s1 ++
          (g2 ++ AFEMeasFrame.encode r2 s2))) =
      ([AFEMeasFrame.encode r1 s1, AFEMeasFrame.encode r2 s2], []) := by
  have e1 : extractFrame (g1 ++ (AFEMeasFrame.encode r1 s1 ++
      (g2 ++ AFEMeasFrame.encode r2 s2))) =
      (some (AFEMeasFrame.encode r1 s1), g2 ++ AFEMeasFrame.encode r2 s2) :=
    extract_encode_frame g1 _ r1 s1 h1 hg1
  have e2 : extractFrame (g2 ++ AFEMeasFrame.encode r2 s2) =
      (some (AFEMeasFrame.encode r2 s2), []) := by
    have e := extract_encode_frame g2 [] r2 s2 h2 hg2
    rw [List.append_nil] at e
    exact e
  have e3 : extractFrame ([] : List Nat) = (none, []) := rfl
  rw [show fuel + 3 = (fuel + 2) + 1 from rfl,
    extractUntilNone_cons _ _ _ _ e1]
  rw [show fuel + 2 = (fuel + 1) + 1 from rfl,
    extractUntilNone_cons _ _ _ _ e2]
  rw [extractUntilNone_stop fuel _ _ e3]

/-- Witness for the amended C3 at concrete garbage `[0, 1]` and `[2]`,
two concrete valid frames and the minimum three extractor calls. -/
theorem c3_resync_two_frames_witness :
    extractUntilNone 3
        ([0, 1] ++ (AFEMeasFrame.encode exampleRecord 7 ++
          ([2] ++ AFEMeasFrame.encode exampleRecord 8))) =
      ([AFEMeasFrame.encode exampleRecord 7,
        AFEMeasFrame.encode exampleRecord 8], []) :=
  c3_resync_two_frames exampleRecord exampleRecord 7 8 [0, 1] [2]
    exampleRecord_valid exampleRecord_valid (by decide) (by decide) 0

/-- C3 counterexample: for arbitrary garbage the claim is false.  The
extractor validates neither message id nor CRC, so garbage shaped like
`A5 .. AA` with a consistent length byte is itself returned as a frame:
with leading garbage `[165,0,0,0,0,0,0,170]`, the run of extractor calls
yields three frames, the first being the garbage, not exactly the two
valid frames. -/
theorem c3_garbage_counterexample :
    extractUntilNone 4
        ([165, 0, 0, 0, 0, 0, 0, 170] ++ (AFEMeasFrame.encode exampleRecord 7 ++
          ([0] ++ AFEMeasFrame.encode exampleRecord 8))) =
      ([[165, 0, 0, 0, 0, 0, 0, 170], AFEMeasFrame.encode exampleRecord 7,
        AFEMeasFrame.encode exampleRecord 8], []) ∧
    extractUntilNone 4
        ([165, 0, 0, 0, 0, 0, 0, 170] ++ (AFEMeasFrame.encode exampleRecord 7 ++
          ([0] ++ AFEMeasFrame.encode exampleRecord 8))) ≠
      ([AFEMeasFrame.encode exampleRecord 7,
        AFEMeasFrame.encode exampleRecord 8], []) := by
  have eG : extractFrame
      ([165, 0, 0, 0, 0, 0, 0, 170] ++ (AFEMeasFrame.encode exampleRecord 7 ++
        ([0] ++ AFEMeasFrame.encode exampleRecord 8))) =
      (some [165, 0, 0, 0, 0, 0, 0, 170],
        AFEMeasFrame.encode exampleRecord 7 ++
          ([0] ++ AFEMeasFrame.encode exampleRecord 8)) :=
    extractFrame_frame_prefix [] _ 0 0 0 0 [0, 0, 170] (by simp) rfl rfl
  have e1 : extractFrame (AFEMeasFrame.encode exampleRecord 7 ++
      ([0] ++ AFEMeasFrame.encode exampleRecord 8)) =
      (some (AFEMeasFrame.encode exampleRecord 7),
        [0] ++ AFEMeasFrame.encode exampleRecord 8) :=
    extract_encode_frame [] _ exampleRecord 7 exampleRecord_valid (by simp)
  have e2 : extractFrame ([0] ++ AFEMeasFrame.encode exampleRecord 8) =
      (some (AFEMeasFrame.encode exampleRecord 8), []) := by
    have e := extract_encode_frame [0] [] exampleRecord 8 exampleRecord_valid
      (by decide)
    rw [List.append_nil] at e
    exact e
  have hrun : extractUntilNone 4
      ([165, 0, 0, 0, 0, 0, 0, 170] ++ (AFEMeasFrame.encode exampleRecord 7 ++
        ([0] ++ AFEMeasFrame.encode exampleRecord 8))) =
      ([[165, 0, 0, 0, 0, 0, 0, 170], AFEMeasFrame.encode exampleRecord 7,
        AFEMeasFrame.encode exampleRecord 8], []) := by
    rw [show (4 : Nat) = 3 + 1 from rfl, extractUntilNone_cons _ _ _ _ eG]
    rw [show (3 : Nat) = 2 + 1 from rfl, extractUntilNone_cons _ _ _ _ e1]
    rw [show (2 : Nat) = 1 + 1 from rfl, extractUntilNone_cons _ _ _ _ e2]
    rw [show (1 : Nat) = 0 + 1 from rfl, extractUntilNone_stop 0 [] [] rfl]
  refine ⟨hrun, ?_⟩
  rw [hrun]
  intro hEq
  exact absurd (congrArg List.length (congrArg Prod.fst hEq)) (by decide)

/-- C5 counterexample: when the send itself fails on every one of the
10 attempts, `send_and_receive` does `return False` to the caller — it
does not terminate the process. -/
theorem c5_all_send_fail_returns :
    retryLoop (List.replicate 10 AttemptOutcome.sendFail) =
      (SRResult.returnFalse, 10) ∧
    (retryLoop (List.replicate 10 AttemptOutcome.sendFail)).1 ≠
      SRResult.exit1 := by
  decide

/-- C5 (amended): when no attempt obtains a valid response, exactly one
`_send_frame` call happens per attempt (`max_retries` in total, never
fewer, never more); the process is terminated via `sys.exit(1)` exactly
when the final attempt's send succeeded (its failure was a timeout or a
validation failure); if the final attempt's send itself failed, the call
instead does `return False`. -/
theorem c5_retry_exhaustion (l : List AttemptOutcome) (hne : l ≠ [])
    (hng : ∀ o ∈ l, o ≠ AttemptOutcome.good) :
    (retryLoop l).2 = l.length ∧
      (retryLoop l).1 =
        (if l.getLast? = some AttemptOutcome.sendFail then SRResult.returnFalse
         else SRResult.exit1) := by
  induction l with
  | nil => exact absurd rfl hne
  | cons o rest ih =>
    cases rest with
    | nil =>
      cases o with
      | good => exact absurd rfl (hng .good (by simp))
      | sendFail => simp [retryLoop]
      | timeout => simp [retryLoop]
      | badFrame => simp [retryLoop]
    | cons o2 rest2 =>
      have ihh := ih (by simp) (fun x hx => hng x (by simp [hx]))
      have hgl : (o :: o2 :: rest2).getLast? = (o2 :: rest2).getLast? :=
        List.getLast?_cons_cons
      cases o with
      | good => exact absurd rfl (hng .good (by simp))
      | sendFail =>
        refine ⟨?_, ?_⟩
        · show (retryLoop (o2 :: rest2)).2 + 1 = (o2 :: rest2).length + 1
          rw [ihh.1]
        · show (retryLoop (o2 :: rest2)).1 = _
          rw [hgl]
          exact ihh.2
      | timeout =>
        refine ⟨?_, ?_⟩
        · show (retryLoop (o2 :: rest2)).2 + 1 = (o2 :: rest2).length + 1
          rw [ihh.1]
        · show (retryLoop (o2 :: rest2)).1 = _
          rw [hgl]
          exact ihh.2
      | badFrame =>
        refine ⟨?_, ?_⟩
        · show (retryLoop (o2 :: rest2)).2 + 1 = (o2 :: rest2).length + 1
          rw [ihh.1]
        · show (retryLoop (o2 :: rest2)).1 = _
          rw [hgl]
          exact ihh.2

/-- Witness for the amended C5: ten straight timeouts make exactly ten
send attempts and end in `sys.exit(1)`. -/
theorem c5_retry_exhaustion_witness :
    (retryLoop (List.replicate 10 AttemptOutcome.timeout)).2 =
      (List.replicate 10 AttemptOutcome.timeout).length ∧
      (retryLoop (List.replicate 10 AttemptOutcome.timeout)).1 =
        (if (List.replicate 10 AttemptOutcome.timeout).getLast? =
            some AttemptOutcome.sendFail then SRResult.returnFalse
         else SRResult.exit1) :=
  c5_retry_exhaustion (List.replicate 10 AttemptOutcome.timeout)
    (by decide) (by decide)

/-- C6 counterexample: with the outbound queue already full, a
`send_frame` call is rejected (returns `False`, the frame is dropped)
and yet the TX sequence counter still increments from 0 to 1 — the
counter does not increment "exactly when a frame is accepted". -/
theorem c6_full_queue_still_increments :
    (send_frame fullTxState exampleRecord).1 = false ∧
    (send_frame fullTxState exampleRecord).2.txSequence = 1 ∧
    fullTxState.txSequence = 0 := by
  have hv : validate_afe_meas_data exampleRecord = true := by decide
  have he : encodeOk exampleRecord = true := by decide
  simp [send_frame, fullTxState, hv, he, and_65535_eq_mod]

/-- C6 (amended): the TX sequence counter increments by one modulo
65536 exactly when the record validates and encodes (even when the full
queue then rejects the frame), and not on validation or encoding
failure; consequently in a run of accepted frames (queue drained
between sends) the `k`-th frame carries wire sequence `k % 65536`, so
65537 accepted frames carry `0, 1, ..., 65535, 0`. -/
theorem c6_sequence_counter (r : AFEMeasRecord)
    (h1 : validate_afe_meas_data r = true) (h2 : encodeOk r = true) :
    (∀ (st : TxState) (r2 : AFEMeasRecord),
      (send_frame st r2).2.txSequence =
        if validate_afe_meas_data r2 && encodeOk r2 then
          (st.txSequence + 1) % 65536
        else st.txSequence) ∧
    (∀ k : Nat, (runState r k).txSequence = k % 65536 ∧
      (send_frame { runState r k with txQueue := [] } r).1 = true ∧
      readU16 ((AFEMeasFrame.encode r ((runState r k).txSequence)).drop 3) =
        k % 65536) := by
  have hpart1 : ∀ (st : TxState) (r2 : AFEMeasRecord),
      (send_frame st r2).2.txSequence =
        if validate_afe_meas_data r2 && encodeOk r2 then
          (st.txSequence + 1) % 65536
        else st.txSequence := by
    intro st r2
    by_cases hv2 : validate_afe_meas_data r2 = true
    · by_cases he2 : encodeOk r2 = true
      · simp [send_frame, hv2, he2, and_65535_eq_mod, apply_ite]
      · simp [send_frame, hv2, he2]
    · simp [send_frame, hv2]
  have hacc : ∀ st : TxState,
      (send_frame { st with txQueue := [] } r).1 = true := by
    intro st
    simp [send_frame, h1, h2]
  have hwire : ∀ s : Nat,
      readU16 ((AFEMeasFrame.encode r s).drop 3) = s % 65536 := by
    intro s
    rw [encode_eq]
    have hd : (165 :: (crcData r s ++
        (u16le (crc16_ccitt (crcData r s) 0xFFFF) ++ [170]))).drop 3 =
        u16le (s &&& 65535) ++ (encodePayload r ++
          (u16le (crc16_ccitt (crcData r s) 0xFFFF) ++ [170])) := rfl
    rw [hd, readU16_u16le _ _ (by rw [and_65535_eq_mod]; omega),
      and_65535_eq_mod]
  refine ⟨hpart1, ?_⟩
  intro k
  induction k with
  | zero => exact ⟨rfl, hacc _, by rw [hwire]; rfl⟩
  | succ k ihk =>
    have hseqs : (runState r (k + 1)).txSequence = (k + 1) % 65536 := by
      show (send_frame { runState r k with txQueue := [] } r).2.txSequence = _
      rw [hpart1]
      simp [h1, h2]
      rw [ihk.1]
      omega
    exact ⟨hseqs, hacc _, by rw [hwire, hseqs]; omega⟩

/-- Witness for the amended C6: the fourth frame of an accepted run
carries wire sequence 3 and the counter tracks `k % 65536`. -/
theorem c6_sequence_counter_witness :
    (runState exampleRecord 3).txSequence = 3 % 65536 ∧
      (send_frame { runState exampleRecord 3 with txQueue := [] }
        exampleRecord).1 = true ∧
      readU16 ((AFEMeasFrame.encode exampleRecord
        ((runState exampleRecord 3).txSequence)).drop 3) = 3 % 65536 :=
  (c6_sequence_counter exampleRecord (by decide) (by decide)).2 3

/-- C7: backpressure on both bounded queues.  A `send_frame` against a
full (100-element) outbound queue returns `False`, leaves the queue
untouched and increments the send-error counter; the inbound insertion
against a full (1000-element) queue drops the oldest element and
appends the new one, keeping the length at 1000, so the receiver never
blocks. -/
theorem c7_backpressure :
    (∀ (st : TxState) (r : AFEMeasRecord), st.txQueue.length = 100 →
      validate_afe_meas_data r = true → encodeOk r = true →
      (send_frame st r).1 = false ∧
      (send_frame st r).2.txQueue = st.txQueue ∧
      (send_frame st r).2.txErrors = st.txErrors + 1) ∧
    (∀ (q : List BMSAppRecord) (x : BMSAppRecord), q.length = 1000 →
      rxEnqueue q x = q.drop 1 ++ [x] ∧ (rxEnqueue q x).length = 1000) := by
  constructor
  · intro st r hfull hv he
    simp [send_frame, hv, he, hfull]
  · intro q x hfull
    constructor
    · simp [rxEnqueue, hfull]
    · simp [rxEnqueue, hfull]

/-- Witness for C7: a concrete full outbound queue rejects the send and
a concrete full inbound queue evicts its head. -/
theorem c7_backpressure_witness :
    ((send_frame fullTxState exampleRecord).1 = false ∧
      (send_frame fullTxState exampleRecord).2.txQueue =
        fullTxState.txQueue ∧
      (send_frame fullTxState exampleRecord).2.txErrors =
        fullTxState.txErrors + 1) ∧
    rxEnqueue (List.replicate 1000 someBmsRecord) someBmsRecord =
      (List.replicate 1000 someBmsRecord).drop 1 ++ [someBmsRecord] :=
  ⟨c7_backpressure.1 fullTxState exampleRecord (by decide) (by decide)
      (by decide),
   (c7_backpressure.2 (List.replicate 1000 someBmsRecord) someBmsRecord
      (by simp)).1⟩

/-- C8 counterexample: the sequential transport's request counter wraps
at `2**31`, not `2**32`: from value `2**31 - 1` the stored counter
becomes 0, while incrementing modulo `2**32` would give `2**31`. -/
theorem c8_wrap_counterexample :
    (txCounterStep 2147483647).2 = 0 ∧
    (2147483647 + 1) % 4294967296 = 2147483648 ∧
    (txCounterStep 2147483647).2 ≠ (2147483647 + 1) % 4294967296 := by
  refine ⟨by norm_num [txCounterStep], by norm_num, ?_⟩
  norm_num [txCounterStep]

/-- C8 (amended): each exchange uses the current counter value as the
request identifier and then increments it by one modulo `2**31` (not
`2**32`); the stored value therefore always stays below `2**31`, and in
particular below `2**32`. -/
theorem c8_counter_wraps_mod_two_pow_31 (c : Nat) :
    (txCounterStep c).1 = c ∧
    (txCounterStep c).2 = (c + 1) % 2147483648 ∧
    (txCounterStep c).2 < 2147483648 ∧
    (txCounterStep c).2 < 4294967296 := by
  refine ⟨rfl, rfl, ?_, ?_⟩
  · show (c + 1) % 2147483648 < 2147483648
    omega
  · show (c + 1) % 2147483648 < 4294967296
    omega

theorem xor_shiftLeft (a b n : Nat) :
    (a ^^^ b) <<< n = (a <<< n) ^^^ (b <<< n) := by
  apply Nat.eq_of_testBit_eq
  intro i
  simp [Nat.testBit_shiftLeft, Nat.testBit_xor, Bool.and_xor_distrib_left]

theorem xor_rot (x y z : Nat) : x ^^^ y ^^^ z = x ^^^ z ^^^ y := by
  rw [Nat.xor_assoc, Nat.xor_comm y z, ← Nat.xor_assoc]

theorem xor_cancel_pair (x y p : Nat) : (x ^^^ p) ^^^ (y ^^^ p) = x ^^^ y := by
  rw [Nat.xor_assoc, ← Nat.xor_assoc p y p, Nat.xor_comm p y,
    Nat.xor_assoc y p p, Nat.xor_self, Nat.xor_zero]

theorem xor_shuffle (w x y z : Nat) :
    (w ^^^ x) ^^^ (y ^^^ z) = (w ^^^ y) ^^^ (x ^^^ z) := by
  rw [Nat.xor_assoc w x, ← Nat.xor_assoc x y z, Nat.xor_comm x y,
    Nat.xor_assoc y x z, ← Nat.xor_assoc w y (x ^^^ z)]

/-- The branch condition of `crcStep` is bit 15 of the state. -/
theorem crcStep_eq_testBit (c : Nat) :
    crcStep c = if c.testBit 15 then ((c <<< 1) ^^^ 0x1021) &&& 0xFFFF
      else (c <<< 1) &&& 0xFFFF := by
  unfold crcStep
  have h := Nat.and_two_pow c 15
  norm_num at h
  cases h15 : c.testBit 15 with
  | false =>
    rw [if_neg (by rw [h, h15]; simp), if_neg (by simp)]
  | true =>
    rw [if_pos (by rw [h, h15]; simp), if_pos rfl]

/-- `crcStep` is linear over bitwise xor. -/
theorem crcStep_xor (a b : Nat) :
    crcStep (a ^^^ b) = crcStep a ^^^ crcStep b := by
  rw [crcStep_eq_testBit, crcStep_eq_testBit, crcStep_eq_testBit,
    Nat.testBit_xor]
  cases ha : a.testBit 15 with
  | false =>
    cases hb : b.testBit 15 with
    | false =>
      rw [if_neg (show ¬((false ^^ false) = true) from by decide),
        if_neg (show ¬(false = true) from by decide),
        if_neg (show ¬(false = true) from by decide)]
      rw [xor_shiftLeft, Nat.and_xor_distrib_right]
    | true =>
      rw [if_pos (show (false ^^ true) = true from by decide),
        if_neg (show ¬(false = true) from by decide),
        if_pos (show (true : Bool) = true from rfl)]
      rw [← Nat.and_xor_distrib_right, xor_shiftLeft]
      congr 1
      rw [Nat.xor_assoc]
  | true =>
    cases hb : b.testBit 15 with
    | false =>
      rw [if_pos (show (true ^^ false) = true from by decide),
        if_pos (show (true : Bool) = true from rfl),
        if_neg (show ¬(false = true) from by decide)]
      rw [← Nat.and_xor_distrib_right, xor_shiftLeft]
      congr 1
      rw [xor_rot]
    | true =>
      rw [if_neg (show ¬((true ^^ true) = true) from by decide),
        if_pos (show (true : Bool) = true from rfl),
        if_pos (show (true : Bool) = true from rfl)]
      rw [← Nat.and_xor_distrib_right, xor_cancel_pair, xor_shiftLeft]

theorem crcStep_iterate_xor (n : Nat) (a b : Nat) :
    crcStep^[n] (a ^^^ b) = crcStep^[n] a ^^^ crcStep^[n] b := by
  induction n generalizing a b with
  | zero => rfl
  | succ n ih =>
    rw [Function.iterate_succ_apply, Function.iterate_succ_apply,
      Function.iterate_succ_apply, crcStep_xor]
    exact ih _ _

/-- `crcByte` is jointly linear over bitwise xor of state and byte. -/
theorem crcByte_xor (c1 c2 b1 b2 : Nat) :
    crcByte (c1 ^^^ c2) (b1 ^^^ b2) = crcByte c1 b1 ^^^ crcByte c2 b2 := by
  unfold crcByte
  rw [xor_shiftLeft, xor_shuffle, crcStep_iterate_xor]

/-- The CRC fold is linear: the CRC of a pointwise-xored message from a
xored initial state is the xor of the two CRCs. -/
theorem crc16_fold_xor (l1 l2 : List Nat) (hlen : l1.length = l2.length) :
    ∀ c1 c2 : Nat,
      List.foldl crcByte (c1 ^^^ c2) (List.zipWith (fun x y => x ^^^ y) l1 l2) =
        List.foldl crcByte c1 l1 ^^^ List.foldl crcByte c2 l2 := by
  induction l1 generalizing l2 with
  | nil =>
    cases l2 with
    | nil => intro c1 c2; rfl
    | cons y l2 => simp at hlen
  | cons x l1 ih =>
    cases l2 with
    | nil => simp at hlen
    | cons y l2 =>
      intro c1 c2
      rw [List.zipWith_cons_cons, List.foldl_cons, List.foldl_cons,
        List.foldl_cons, crcByte_xor]
      exact ih l2 (by simpa using hlen) _ _

theorem crcStep_ne_zero (c : Nat) (hlt : c < 65536) (hne : c ≠ 0) :
    crcStep c ≠ 0 := by
  rw [crcStep_eq_testBit]
  cases h15 : c.testBit 15 with
  | false =>
    rw [if_neg (show ¬(false = true) from by decide)]
    rw [Nat.testBit_to_div_mod] at h15
    simp only [decide_eq_false_iff_not] at h15
    have hc : c < 32768 := by
      norm_num at h15
      omega
    have hm : (c <<< 1) &&& 65535 = (c <<< 1) % 65536 := by
      have h := Nat.and_pow_two_sub_one_eq_mod (c <<< 1) 16
      norm_num at h
      exact h
    rw [hm, Nat.shiftLeft_eq, pow_one]
    omega
  | true =>
    rw [if_pos rfl]
    have h0 : ((c <<< 1) ^^^ 4129).testBit 0 = true := by
      rw [Nat.testBit_xor]
      have h1 : (c <<< 1).testBit 0 = false := by
        rw [Nat.testBit_to_div_mod, Nat.shiftLeft_eq, pow_one]
        norm_num [Nat.mul_mod_left]
      rw [h1]
      decide
    rw [Nat.testBit_to_div_mod] at h0
    simp only [decide_eq_true_eq] at h0
    rw [pow_zero, Nat.div_one] at h0
    have hm : ((c <<< 1) ^^^ 4129) &&& 65535 = ((c <<< 1) ^^^ 4129) % 65536 := by
      have h := Nat.and_pow_two_sub_one_eq_mod ((c <<< 1) ^^^ 4129) 16
      norm_num at h
      exact h
    rw [hm]
    omega

theorem crcStep_iterate_bounds (n : Nat) :
    ∀ c : Nat, c < 65536 → c ≠ 0 →
      crcStep^[n] c ≠ 0 ∧ crcStep^[n] c < 65536 := by
  induction n with
  | zero => exact fun c hlt hne => ⟨hne, hlt⟩
  | succ n ih =>
    intro c hlt hne
    rw [Function.iterate_succ_apply]
    exact ih (crcStep c) (crcStep_lt c) (crcStep_ne_zero c hlt hne)

theorem foldl_crcByte_zeros : ∀ j : Nat,
    List.foldl crcByte 0 (List.replicate j 0) = 0 := by
  intro j
  induction j with
  | zero => rfl
  | succ j ih =>
    rw [List.replicate_succ, List.foldl_cons,
      show crcByte 0 0 = 0 from by decide]
    exact ih

theorem foldl_crcByte_zeros_ne_zero : ∀ (k : Nat) (c : Nat), c ≠ 0 →
    c < 65536 → List.foldl crcByte c (List.replicate k 0) ≠ 0 := by
  intro k
  induction k with
  | zero => intro c h1 h2; simpa using h1
  | succ k ih =>
    intro c h1 h2
    rw [List.replicate_succ, List.foldl_cons]
    have hbyte : crcByte c 0 = crcStep^[8] c := by
      unfold crcByte
      rw [Nat.zero_shiftLeft, Nat.xor_zero]
    obtain ⟨hne8, hlt8⟩ := crcStep_iterate_bounds 8 c h2 h1
    rw [hbyte]
    exact ih _ hne8 hlt8

/-- The CRC (zero initial state) of a message with a single nonzero byte
holding a single set bit is nonzero: a single-bit message is never a
codeword of the 0x1021 polynomial. -/
theorem crc_oneHot_ne_zero (j k b : Nat) (hb : b < 8) :
    crc16_ccitt (List.replicate j 0 ++ (2 ^ b :: List.replicate k 0)) 0 ≠ 0 := by
  unfold crc16_ccitt
  rw [List.foldl_append, foldl_crcByte_zeros, List.foldl_cons]
  have hbyte : crcByte 0 (2 ^ b) = crcStep^[8] (2 ^ (b + 8)) := by
    unfold crcByte
    rw [Nat.zero_xor, Nat.shiftLeft_eq, ← pow_add]
  rw [hbyte]
  have h1 : (2 : Nat) ^ (b + 8) < 65536 := by
    calc (2 : Nat) ^ (b + 8) < 2 ^ 16 :=
          Nat.pow_lt_pow_right (by norm_num) (by omega)
      _ = 65536 := by norm_num
  obtain ⟨hne8, hlt8⟩ :=
    crcStep_iterate_bounds 8 _ h1 (Nat.two_pow_pos (b + 8)).ne'
  exact foldl_crcByte_zeros_ne_zero k _ hne8 hlt8

theorem zipWith_xor_zeros (d : List Nat) :
    List.zipWith (fun x y => x ^^^ y) d (List.replicate d.length 0) = d := by
  induction d with
  | nil => rfl
  | cons x d ih => simp [List.replicate_succ, ih]

/-- Flipping bits of the byte at index `j` is pointwise xor against a
one-hot mask. -/
theorem set_flip_eq_zipWith (d : List Nat) (j v : Nat) (hj : j < d.length) :
    d.set j (d.getD j 0 ^^^ v) =
      List.zipWith (fun x y => x ^^^ y) d
        (List.replicate j 0 ++ (v :: List.replicate (d.length - j - 1) 0)) := by
  induction d generalizing j with
  | nil => simp at hj
  | cons x d ih =>
    cases j with
    | zero =>
      rw [List.getD_cons_zero, show List.replicate 0 (0 : Nat) = [] from rfl,
        List.nil_append, List.zipWith_cons_cons]
      rw [show (x :: d).length - 0 - 1 = d.length from by simp]
      rw [zipWith_xor_zeros]
      rfl
    | succ j =>
      rw [List.set_cons_succ, List.getD_cons_succ, List.replicate_succ,
        List.cons_append, List.zipWith_cons_cons, Nat.xor_zero]
      congr 1
      rw [show (x :: d).length - (j + 1) - 1 = d.length - j - 1 from by simp]
      exact ih j (by simpa using hj)

/-- Single-bit corruption of any CRC-covered byte always changes the
CRC16 value. -/
theorem crc16_flip_ne (d : List Nat) (j b : Nat) (hj : j < d.length)
    (hb : b < 8) :
    crc16_ccitt (d.set j (d.getD j 0 ^^^ 2 ^ b)) 0xFFFF ≠
      crc16_ccitt d 0xFFFF := by
  have hlen2 : d.length = (List.replicate j 0 ++
      (2 ^ b :: List.replicate (d.length - j - 1) 0)).length := by
    simp [List.length_append, List.length_replicate]
    omega
  have hlin : crc16_ccitt (List.zipWith (fun x y => x ^^^ y) d
      (List.replicate j 0 ++ (2 ^ b :: List.replicate (d.length - j - 1) 0)))
      (0xFFFF ^^^ 0) =
      crc16_ccitt d 0xFFFF ^^^
        crc16_ccitt (List.replicate j 0 ++
          (2 ^ b :: List.replicate (d.length - j - 1) 0)) 0 :=
    crc16_fold_xor d _ hlen2 0xFFFF 0
  rw [Nat.xor_zero] at hlin
  intro hEq
  rw [set_flip_eq_zipWith d j (2 ^ b) hj, hlin] at hEq
  have hx : crc16_ccitt (List.replicate j 0 ++
      (2 ^ b :: List.replicate (d.length - j - 1) 0)) 0 = 0 := by
    have h5 := congrArg (fun z => crc16_ccitt d 0xFFFF ^^^ z) hEq
    simp only at h5
    rwa [← Nat.xor_assoc, Nat.xor_self, Nat.zero_xor] at h5
  exact absurd hx (crc_oneHot_ne_zero j (d.length - j - 1) b hb)

theorem getD_set_self (l : List Nat) (i v : Nat) (h : i < l.length) :
    (l.set i v).getD i 0 = v := by
  simp [List.getD, List.getElem?_set, h]

theorem getD_set_ne (l : List Nat) (i j v : Nat) (h : i ≠ j) :
    (l.set i v).getD j 0 = l.getD j 0 := by
  simp [List.getD, List.getElem?_set_ne h]

theorem xor_two_pow_ne_self (a b : Nat) : a ^^^ 2 ^ b ≠ a := by
  intro hEq
  apply (Nat.two_pow_pos b).ne'
  have h5 := congrArg (fun z => a ^^^ z) hEq
  simp only at h5
  rwa [← Nat.xor_assoc, Nat.xor_self, Nat.zero_xor] at h5

/-- C4: single-bit corruption detection.  For every valid encoded frame
and every bit of the header fields after the start marker (message id,
length, sequence — bytes 1..4) or of the payload (bytes 5..84), flipping
exactly that bit makes `AFEMeasFrame.decode` return `None`: a flipped
message id fails the id check, a flipped length byte fails the length
consistency check, and any other flip changes the recomputed CRC16
(polynomial 0x1021) away from the stored one. -/
theorem c4_single_bit_corruption (r : AFEMeasRecord) (s : Nat)
    (h : ValidRecord r) (i b : Nat) (hi1 : 1 ≤ i) (hi2 : i ≤ 84)
    (hb : b < 8) :
    AFEMeasFrame.decode (flipBit (AFEMeasFrame.encode r s) i b) =
      AFEMeasFrame.DecodeResult.invalid := by
  have hplen : (encodePayload r).length = 80 :=
    encodePayload_length r h.2.1 h.2.2.2.1
  have hD : (crcData r s).length = 84 := crcData_length r s hplen
  have hcrc : crc16_ccitt (crcData r s) 0xFFFF < 65536 :=
    crc16_lt _ _ (by norm_num)
  obtain ⟨i, rfl⟩ : ∃ i2, i = i2 + 1 := ⟨i - 1, by omega⟩
  have hgetD : (AFEMeasFrame.encode r s).getD (i + 1) 0 =
      (crcData r s).getD i 0 := by
    rw [encode_eq, List.getD_cons_succ,
      List.getD_append _ _ _ _ (by omega)]
  have hflip : flipBit (AFEMeasFrame.encode r s) (i + 1) b =
      165 :: ((crcData r s).set i ((crcData r s).getD i 0 ^^^ 2 ^ b) ++
        (u16le (crc16_ccitt (crcData r s) 0xFFFF) ++ [170])) := by
    unfold flipBit
    rw [hgetD, encode_eq, List.set_cons_succ, List.set_append,
      if_pos (by omega)]
  rw [hflip, decode_shape _ _ (by rw [List.length_set]; exact hD) hcrc]
  by_cases hi0 : i = 0
  · subst hi0
    have hv : ((crcData r s).set 0 ((crcData r s).getD 0 0 ^^^ 2 ^ b)).getD
        0 0 = 1 ^^^ 2 ^ b := by
      rw [getD_set_self _ _ _ (by omega), crcData_getD0]
    rw [if_pos (show ((crcData r s).set 0
        ((crcData r s).getD 0 0 ^^^ 2 ^ b)).getD 0 0 ≠ 1 from by
      rw [hv]; exact xor_two_pow_ne_self 1 b)]
  · by_cases hi1' : i = 1
    · subst hi1'
      have hv0 : ((crcData r s).set 1 ((crcData r s).getD 1 0 ^^^ 2 ^ b)).getD
          0 0 = 1 := by
        rw [getD_set_ne _ _ _ _ (by omega), crcData_getD0]
      have hv1 : ((crcData r s).set 1 ((crcData r s).getD 1 0 ^^^ 2 ^ b)).getD
          1 0 = 80 ^^^ 2 ^ b := by
        rw [getD_set_self _ _ _ (by omega), crcData_getD1, hplen]
      rw [if_neg (show ¬(((crcData r s).set 1
          ((crcData r s).getD 1 0 ^^^ 2 ^ b)).getD 0 0 ≠ 1) from by
        rw [hv0]; omega)]
      rw [if_pos (show ((crcData r s).set 1
          ((crcData r s).getD 1 0 ^^^ 2 ^ b)).getD 1 0 ≠ 80 from by
        rw [hv1]; exact xor_two_pow_ne_self 80 b)]
    · have hv0 : ((crcData r s).set i ((crcData r s).getD i 0 ^^^ 2 ^ b)).getD
          0 0 = 1 := by
        rw [getD_set_ne _ _ _ _ (by omega), crcData_getD0]
      have hv1 : ((crcData r s).set i ((crcData r s).getD i 0 ^^^ 2 ^ b)).getD
          1 0 = 80 := by
        rw [getD_set_ne _ _ _ _ (by omega), crcData_getD1, hplen]
      have hcne : crc16_ccitt ((crcData r s).set i
          ((crcData r s).getD i 0 ^^^ 2 ^ b)) 0xFFFF ≠
          crc16_ccitt (crcData r s) 0xFFFF :=
        crc16_flip_ne (crcData r s) i b (by omega) hb
      rw [if_neg (show ¬(((crcData r s).set i
          ((crcData r s).getD i 0 ^^^ 2 ^ b)).getD 0 0 ≠ 1) from by
        rw [hv0]; omega)]
      rw [if_neg (show ¬(((crcData r s).set i
          ((crcData r s).getD i 0 ^^^ 2 ^ b)).getD 1 0 ≠ 80) from by
        rw [hv1]; omega)]
      rw [if_pos hcne]

/-- Witness for C4: flipping bit 3 of byte 10 (inside the payload) of
the encoded example frame makes decode return `None`. -/
theorem c4_single_bit_corruption_witness :
    AFEMeasFrame.decode (flipBit (AFEMeasFrame.encode exampleRecord 7) 10 3) =
      AFEMeasFrame.DecodeResult.invalid :=
  c4_single_bit_corruption exampleRecord 7 exampleRecord_valid 10 3
    (by decide) (by decide) (by decide)

end BPS
